import Mathlib

/-!
Shallow embedding of the shell-ai repository (Go) for specification checking.

The definitions below are translated from the Go sources:
  * internal/parser/parser.go   — ContextManager, ParseLLMResponse, extractJSONFromMarkdown
  * internal/suggestions/suggestions.go — generateSuggestions, deduplicate, startsWithAny,
    TextEditors and the context-mode command classification in Run
  * internal/config/config.go   — Config, LoadConfig, loadFromConfigFile, loadFromEnv

Go strings are modeled as Lean `String` (sequences of characters standing for
the runes the Go code iterates over), Go slices as `List`, Go `error` results
as `Except String` values, and the ambient environment / config file as
explicit parameters.
-/

/-- Maximum number of tokens kept in context (parser.go, `MaxContextTokens`). -/
def MaxContextTokens : Nat := 1500

/-- The context manager state (parser.go, `ContextManager`): a rune buffer and
its capacity. -/
structure ContextManager where
  tokenBuffer : List Char
  maxTokens : Nat
deriving DecidableEq

/-- `NewContextManager` (parser.go): empty buffer with capacity `MaxContextTokens`. -/
def NewContextManager : ContextManager :=
  { tokenBuffer := [], maxTokens := MaxContextTokens }

/-- `AddToken` (parser.go): when the buffer is full the first token is removed,
then the new token is appended. -/
def ContextManager.AddToken (cm : ContextManager) (token : Char) : ContextManager :=
  let buf := if cm.tokenBuffer.length ≥ cm.maxTokens then cm.tokenBuffer.drop 1 else cm.tokenBuffer
  { cm with tokenBuffer := buf ++ [token] }

/-- `Flush` (parser.go): clears the buffer. -/
def ContextManager.Flush (cm : ContextManager) : ContextManager :=
  { cm with tokenBuffer := [] }

/-- `AddChunk` (parser.go): flush, then add the chunk's runes one at a time. -/
def ContextManager.AddChunk (cm : ContextManager) (chunk : String) : ContextManager :=
  chunk.data.foldl ContextManager.AddToken cm.Flush

/-- `GetContext` (parser.go): the buffer contents as a string, `""` when empty. -/
def ContextManager.GetContext (cm : ContextManager) : String :=
  if cm.tokenBuffer.length = 0 then "" else String.mk cm.tokenBuffer

/-- `deduplicate` inner loop (suggestions.go): `seen` models the Go
`map[string]struct{}` (only membership is consulted) and `result` the
accumulated output slice. -/
def dedupLoop (seen : List String) (result : List String) : List String → List String
  | [] => result
  | item :: rest =>
    if item ∈ seen then dedupLoop seen result rest
    else dedupLoop (item :: seen) (result ++ [item]) rest

/-- `deduplicate` (suggestions.go): removes duplicate strings, keeping the
first occurrence of each. -/
def deduplicate (slice : List String) : List String :=
  dedupLoop [] [] slice

/-- Reformulation of `dedupLoop` with the output produced by `cons` rather than
by an accumulator; used only to state and prove lemmas. -/
def dedupCore (seen : List String) : List String → List String
  | [] => []
  | item :: rest =>
    if item ∈ seen then dedupCore seen rest
    else item :: dedupCore (item :: seen) rest

/-- Outcome of one suggestion goroutine (suggestions.go, the body of the
`go func()` in `generateSuggestions`), in completion order: either an error
recorded on the shared error list (from `GenerateShellCommand` or
`ParseLLMResponse`), or the parsed command string (possibly empty; empty
commands are not appended to the suggestion list). -/
abbrev TaskOutcome := Except String String

/-- One step of the shared-state accumulation performed by the goroutines in
`generateSuggestions` (suggestions.go): an error outcome appends to the error
list, a non-empty command appends to the suggestion list, an empty command is
dropped. -/
def suggestionStep (acc : List String × List String) (o : TaskOutcome) :
    List String × List String :=
  match o with
  | .error e => (acc.1, acc.2 ++ [e])
  | .ok command => if command ≠ "" then (acc.1 ++ [command], acc.2) else acc

/-- `generateSuggestions` (suggestions.go), modeled on the list of task
outcomes in completion order: accumulate suggestions and errors, fail with the
first recorded error when no suggestion was collected and at least one error
occurred, otherwise return the deduplicated suggestions. -/
def generateSuggestions (outcomes : List TaskOutcome) : Except String (List String) :=
  let acc := outcomes.foldl suggestionStep ([], [])
  match acc.1, acc.2 with
  | [], e :: _ => .error ("failed to generate suggestions: " ++ e)
  | _, _ => .ok (deduplicate acc.1)

/-- Specification-side view of the suggestion list collected by the tasks:
the non-empty commands of the successful outcomes, in order. -/
def collectSuggestions (outcomes : List TaskOutcome) : List String :=
  outcomes.filterMap fun o =>
    match o with
    | .ok command => if command ≠ "" then some command else none
    | .error _ => none

/-- Specification-side view of the error list recorded by the tasks, in order. -/
def collectErrors (outcomes : List TaskOutcome) : List String :=
  outcomes.filterMap fun o =>
    match o with
    | .ok _ => none
    | .error e => some e

/-- `TextEditors` (suggestions.go). -/
def TextEditors : List String := ["vi", "vim", "emacs", "nano", "ed", "micro", "joe", "nvim"]

/-- Go `strings.HasPrefix s p` modeled at the character level. -/
def goStartsWith (s p : String) : Bool :=
  p.data.isPrefixOf s.data

/-- `startsWithAny` (suggestions.go). -/
def startsWithAny (s : String) (prefixes : List String) : Bool :=
  prefixes.any fun p => goStartsWith s p

/-- The three execution shapes distinguished by the context-mode branch of
`Run` (suggestions.go, the `else` branch of `if !cfg.ContextMode`). -/
inductive CtxExec where
  | editor : CtxExec
  | chdir : CtxExec
  | capture : CtxExec
deriving DecidableEq

/-- The classification performed by `Run` (suggestions.go) on the selected
command in context mode: commands starting with a known text-editor name run
attached to the terminal, commands starting with `cd` become a local directory
change, everything else runs with combined output capture. -/
def classifyContextCommand (userCommand : String) : CtxExec :=
  if startsWithAny userCommand TextEditors then .editor
  else if goStartsWith userCommand "cd" then .chdir
  else .capture

/-- JSON values as decoded by `encoding/json`. Numeric payloads are not
recorded: `ParseLLMResponse` and the config loader only ever read string
values, so a number's exact value never matters, only its syntax. -/
inductive Json where
  | null : Json
  | bool : Bool → Json
  | num : Json
  | str : String → Json
  | arr : List Json → Json
  | obj : List (String × Json) → Json

/-- JSON insignificant whitespace (RFC 8259, as accepted by `encoding/json`). -/
def jsonWs (c : Char) : Bool :=
  c = ' ' || c = '\t' || c = '\n' || c = '\r'

/-- Drop leading JSON whitespace. -/
def skipWs : List Char → List Char
  | [] => []
  | c :: cs => if jsonWs c then skipWs cs else c :: cs

/-- Hexadecimal digit test for `\uXXXX` escapes. -/
def isHexDigitChar (c : Char) : Bool :=
  c.isDigit || ('a' ≤ c && c ≤ 'f') || ('A' ≤ c && c ≤ 'F')

/-- Value of a hexadecimal digit. -/
def hexVal (c : Char) : Nat :=
  if c.isDigit then c.toNat - '0'.toNat
  else if 'a' ≤ c && c ≤ 'f' then c.toNat - 'a'.toNat + 10
  else c.toNat - 'A'.toNat + 10

/-- Parse the body of a JSON string (after the opening quote): returns the
decoded characters and the input after the closing quote. Surrogate-pair
recombination is not modeled (`Char.ofNat` is applied to each `\uXXXX` escape
individually); no claim touches surrogate escapes. -/
def parseStringBody : Nat → List Char → Option (List Char × List Char)
  | 0, _ => none
  | _ + 1, [] => none
  | fuel + 1, c :: rest =>
    if c = '"' then some ([], rest)
    else if c = '\\' then
      match rest with
      | [] => none
      | e :: rest' =>
        if e = '"' || e = '\\' || e = '/' then
          (fun r => (e :: r.1, r.2)) <$> parseStringBody fuel rest'
        else if e = 'b' then (fun r => ('\x08' :: r.1, r.2)) <$> parseStringBody fuel rest'
        else if e = 'f' then (fun r => ('\x0c' :: r.1, r.2)) <$> parseStringBody fuel rest'
        else if e = 'n' then (fun r => ('\n' :: r.1, r.2)) <$> parseStringBody fuel rest'
        else if e = 'r' then (fun r => ('\r' :: r.1, r.2)) <$> parseStringBody fuel rest'
        else if e = 't' then (fun r => ('\t' :: r.1, r.2)) <$> parseStringBody fuel rest'
        else if e = 'u' then
          match rest' with
          | h1 :: h2 :: h3 :: h4 :: rest2 =>
            if isHexDigitChar h1 && isHexDigitChar h2 && isHexDigitChar h3 && isHexDigitChar h4 then
              (fun r =>
                (Char.ofNat (hexVal h1 * 4096 + hexVal h2 * 256 + hexVal h3 * 16 + hexVal h4)
                  :: r.1, r.2)) <$> parseStringBody fuel rest2
            else none
          | _ => none
        else none
    else if c.toNat < 32 then none
    else (fun r => (c :: r.1, r.2)) <$> parseStringBody fuel rest

/-- Parse the integer part of a JSON number: `0`, or a nonzero digit followed
by digits. Returns the remaining input. -/
def parseIntPart : List Char → Option (List Char)
  | '0' :: rest => some rest
  | c :: rest => if c.isDigit then some (rest.dropWhile Char.isDigit) else none
  | [] => none

/-- Parse an optional JSON fraction part. -/
def parseFracPart : List Char → Option (List Char)
  | '.' :: rest =>
    if (rest.takeWhile Char.isDigit).isEmpty then none
    else some (rest.dropWhile Char.isDigit)
  | cs => some cs

/-- Parse the digits of a JSON exponent, after an optional sign. -/
def parseExpDigits : List Char → Option (List Char)
  | '+' :: rest =>
    if (rest.takeWhile Char.isDigit).isEmpty then none else some (rest.dropWhile Char.isDigit)
  | '-' :: rest =>
    if (rest.takeWhile Char.isDigit).isEmpty then none else some (rest.dropWhile Char.isDigit)
  | rest =>
    if (rest.takeWhile Char.isDigit).isEmpty then none else some (rest.dropWhile Char.isDigit)

/-- Parse an optional JSON exponent part. -/
def parseExpPart : List Char → Option (List Char)
  | 'e' :: rest => parseExpDigits rest
  | 'E' :: rest => parseExpDigits rest
  | cs => some cs

/-- Parse a JSON number (starting at `-` or a digit); returns the remaining
input on success. -/
def parseNumber (cs : List Char) : Option (List Char) := do
  let cs₁ := match cs with | '-' :: rest => rest | _ => cs
  let cs₂ ← parseIntPart cs₁
  let cs₃ ← parseFracPart cs₂
  parseExpPart cs₃

mutual

/-- Parse one JSON value, skipping leading whitespace. The fuel argument only
bounds the recursion; `jsonParseFull` supplies enough for any input. -/
def parseValue : Nat → List Char → Option (Json × List Char)
  | 0, _ => none
  | fuel + 1, cs =>
    match skipWs cs with
    | 'n' :: 'u' :: 'l' :: 'l' :: rest => some (.null, rest)
    | 't' :: 'r' :: 'u' :: 'e' :: rest => some (.bool true, rest)
    | 'f' :: 'a' :: 'l' :: 's' :: 'e' :: rest => some (.bool false, rest)
    | '"' :: rest =>
      (fun r => (Json.str (String.mk r.1), r.2)) <$> parseStringBody (rest.length + 1) rest
    | '[' :: rest =>
      match skipWs rest with
      | ']' :: rest' => some (.arr [], rest')
      | rest' => parseArrayItems fuel [] rest'
    | '\x7b' :: rest =>
      match skipWs rest with
      | '\x7d' :: rest' => some (.obj [], rest')
      | rest' => parseObjectItems fuel [] rest'
    | c :: rest =>
      if c = '-' || c.isDigit then (fun r => (Json.num, r)) <$> parseNumber (c :: rest)
      else none
    | [] => none

/-- Parse the elements of a non-empty JSON array, positioned at an element. -/
def parseArrayItems : Nat → List Json → List Char → Option (Json × List Char)
  | 0, _, _ => none
  | fuel + 1, acc, cs => do
    let (v, rest) ← parseValue fuel cs
    match skipWs rest with
    | ',' :: rest' => parseArrayItems fuel (acc ++ [v]) rest'
    | ']' :: rest' => some (.arr (acc ++ [v]), rest')
    | _ => none

/-- Parse the members of a non-empty JSON object, positioned at a key. -/
def parseObjectItems : Nat → List (String × Json) → List Char → Option (Json × List Char)
  | 0, _, _ => none
  | fuel + 1, acc, cs =>
    match skipWs cs with
    | '"' :: rest => do
      let (key, rest₁) ← parseStringBody (rest.length + 1) rest
      match skipWs rest₁ with
      | ':' :: rest₂ => do
        let (v, rest₃) ← parseValue fuel rest₂
        match skipWs rest₃ with
        | ',' :: rest₄ => parseObjectItems fuel (acc ++ [(String.mk key, v)]) rest₄
        | '\x7d' :: rest₄ => some (.obj (acc ++ [(String.mk key, v)]), rest₄)
        | _ => none
      | _ => none
    | _ => none

end

/-- Parse a complete JSON document the way `json.Unmarshal` does: one value,
optionally surrounded by whitespace, with nothing after it. -/
def jsonParseFull (s : String) : Option Json :=
  match parseValue (s.data.length + 1) s.data with
  | some (v, rest) => if skipWs rest = [] then some v else none
  | none => none

/-- Processing of one object member by `json.Unmarshal` when decoding into
`CommandResponse` (parser.go): a key matching `command` (Go falls back to a
case-insensitive match) with a string value sets the field, a `null` value is
a no-op, any other value type records a decoding error; other keys are
ignored. The state is (current field value, error recorded). -/
def applyCommandField (st : String × Bool) (kv : String × Json) : String × Bool :=
  if kv.1.data.map Char.toLower = "command".data then
    match kv.2 with
    | .str s => (s, st.2)
    | .null => st
    | _ => (st.1, true)
  else st

/-- `json.Unmarshal([]byte(jsonContent), &commandResp)` followed by reading
`commandResp.Command` (parser.go, `ParseLLMResponse`): syntax errors and
non-object documents fail; `null` and objects without a usable `command` key
leave the field at its zero value `""`. -/
def unmarshalCommand (s : String) : Except String String :=
  match jsonParseFull s with
  | none => .error "invalid JSON"
  | some .null => .ok ""
  | some (.obj kvs) =>
    let st := kvs.foldl applyCommandField ("", false)
    if st.2 then .error "cannot unmarshal value into field CommandResponse.command"
    else .ok st.1
  | some _ => .error "cannot unmarshal value into CommandResponse"

/-- RE2 `\s`: tab, newline, form feed, carriage return, space. -/
def reSpace (c : Char) : Bool :=
  c = '\t' || c = '\n' || c = '\x0c' || c = '\r' || c = ' '

/-- Index of the first occurrence of `needle` as a contiguous sublist of the
input, if any. -/
def findSubIdx (needle : List Char) : List Char → Option Nat
  | [] => if needle.isEmpty then some 0 else none
  | c :: t =>
    if needle.isPrefixOf (c :: t) then some 0
    else (· + 1) <$> findSubIdx needle t

/-- Candidate lengths for the greedy `\s*` of the code-block regex, longest
first: positions `k` inside the whitespace run at the start of `t` where
`t[k]` is the `\n` the regex then consumes. -/
def fenceCandidates (t : List Char) : List Nat :=
  ((List.range (t.takeWhile reSpace).length).filter fun k => t.get? k == some '\n').reverse

/-- Try each greedy `\s*\n` split in turn; for the first that leaves a
remainder containing the closing `\n`-backtick-fence, return the (lazy,
minimal) capture group between them. -/
def tryFenceAt (t : List Char) : List Nat → Option (List Char)
  | [] => none
  | k :: ks =>
    let rest := t.drop (k + 1)
    match findSubIdx ['\n', '\x60', '\x60', '\x60'] rest with
    | some idx => some (rest.take idx)
    | none => tryFenceAt t ks

/-- Match the part of the code-block regex after the opening fence and
optional `json` tag: greedy `\s*`, `\n`, lazy capture group, `\n`, closing
fence. -/
def matchFenceBody (t : List Char) : Option (List Char) :=
  tryFenceAt t (fenceCandidates t)

/-- Attempt the code-block regex anchored at the start of the input, modeling
RE2's preference for consuming the optional `json` tag when a full match
exists with it. -/
def matchCodeBlockAt (cs : List Char) : Option (List Char) :=
  match cs with
  | '\x60' :: '\x60' :: '\x60' :: t =>
    match (if ['j', 's', 'o', 'n'].isPrefixOf t then matchFenceBody (t.drop 4) else none) with
    | some g => some g
    | none => matchFenceBody t
  | _ => none

/-- Leftmost match of the code-block regex
`(three backticks)(?:json)?\s*\n([\s\S]*?)\n(three backticks)`
(parser.go, `codeBlockRegex`): capture group of the first position where the
anchored match succeeds. -/
def findFirstCodeBlock : List Char → Option (List Char)
  | [] => none
  | c :: t =>
    match matchCodeBlockAt (c :: t) with
    | some g => some g
    | none => findFirstCodeBlock t

/-- Leftmost match of the inline-code regex (backtick, `[^`]*` capture,
backtick) (parser.go, `inlineCodeRegex`). -/
def findFirstInline : List Char → Option (List Char)
  | [] => none
  | c :: t =>
    if c = '\x60' then
      match findSubIdx ['\x60'] t with
      | some idx => some (t.take idx)
      | none => findFirstInline t
    else findFirstInline t

/-- Go `unicode.IsSpace`, used by `strings.TrimSpace`. -/
def goIsSpace (c : Char) : Bool :=
  (0x09 ≤ c.toNat && c.toNat ≤ 0x0d) || c.toNat = 0x20 || c.toNat = 0x85 || c.toNat = 0xa0 ||
  c.toNat = 0x1680 || (0x2000 ≤ c.toNat && c.toNat ≤ 0x200a) || c.toNat = 0x2028 ||
  c.toNat = 0x2029 || c.toNat = 0x202f || c.toNat = 0x205f || c.toNat = 0x3000

/-- Go `strings.TrimSpace`. -/
def goTrimSpace (s : String) : String :=
  String.mk (((s.data.dropWhile goIsSpace).reverse.dropWhile goIsSpace).reverse)

/-- `extractJSONFromMarkdown` (parser.go): trimmed capture of the first fenced
code block; otherwise trimmed capture of the first inline code span; otherwise
the empty string. -/
def extractJSONFromMarkdown (markdown : String) : String :=
  match findFirstCodeBlock markdown.data with
  | some g => goTrimSpace (String.mk g)
  | none =>
    match findFirstInline markdown.data with
    | some g => goTrimSpace (String.mk g)
    | none => ""

/-- `ParseLLMResponse` (parser.go): extract candidate JSON from markdown,
fall back to the whole response when nothing (or only whitespace) was
extracted, then unmarshal `{"command": ...}` and return the command field. -/
def ParseLLMResponse (response : String) : Except String String :=
  let jsonContent := extractJSONFromMarkdown response
  let content := if jsonContent = "" then response else jsonContent
  unmarshalCommand content

/-- Go `strconv.Atoi`: optional sign, then decimal digits only; fails on the
empty string, a bare sign, any non-digit, or a value outside the 64-bit int
range. -/
def atoiGo (s : String) : Option Int :=
  match s.data with
  | [] => none
  | c :: rest =>
    let signDigits : Int × List Char :=
      if c = '-' then (-1, rest) else if c = '+' then (1, rest) else (1, c :: rest)
    if signDigits.2.isEmpty || !signDigits.2.all Char.isDigit then none
    else
      let n : Nat := signDigits.2.foldl (fun a d => a * 10 + (d.toNat - '0'.toNat)) 0
      let v : Int := signDigits.1 * n
      if v < -(2 ^ 63) || 2 ^ 63 ≤ v then none else some v

/-- Go `strconv.ParseBool`: the twelve accepted literals. -/
def parseBoolGo (s : String) : Option Bool :=
  if s = "1" || s = "t" || s = "T" || s = "TRUE" || s = "true" || s = "True" then some true
  else if s = "0" || s = "f" || s = "F" || s = "FALSE" || s = "false" || s = "False" then some false
  else none

/-- Numeric value of a digit run. -/
def digitsVal (ds : List Char) : Nat :=
  ds.foldl (fun a d => a * 10 + (d.toNat - '0'.toNat)) 0

/-- Go `strconv.ParseFloat` restricted to finite decimal notation (optional
sign, digits with optional fraction, optional decimal exponent), with the
value modeled exactly as a rational instead of a rounded binary float.
`Inf`/`NaN` spellings and hexadecimal floats, which Go also accepts, are not
modeled; no claim depends on them. -/
def parseFloatGo (s : String) : Option ℚ :=
  match s.data with
  | [] => none
  | cs₀ =>
    let signRest : ℚ × List Char :=
      match cs₀ with
      | '-' :: rest => (-1, rest)
      | '+' :: rest => (1, rest)
      | _ => (1, cs₀)
    let intDs := signRest.2.takeWhile Char.isDigit
    let afterInt := signRest.2.dropWhile Char.isDigit
    let fracState : List Char × List Char :=
      match afterInt with
      | '.' :: rest => (rest.takeWhile Char.isDigit, rest.dropWhile Char.isDigit)
      | _ => ([], afterInt)
    if intDs.isEmpty && fracState.1.isEmpty then none
    else
      let mant : ℚ := (digitsVal intDs : ℚ) +
        (digitsVal fracState.1 : ℚ) / ((10 : ℚ) ^ fracState.1.length)
      match fracState.2 with
      | [] => some (signRest.1 * mant)
      | e :: rest =>
        if e = 'e' || e = 'E' then
          let esignRest : Int × List Char :=
            match rest with
            | '-' :: r => (-1, r)
            | '+' :: r => (1, r)
            | _ => (1, rest)
          let eds := esignRest.2.takeWhile Char.isDigit
          if eds.isEmpty || !(esignRest.2.dropWhile Char.isDigit).isEmpty then none
          else some (signRest.1 * mant * (10 : ℚ) ^ (esignRest.1 * (digitsVal eds : Int)))
        else none

/-- `Config` (config.go). `OpenAIMaxTokens` and `SuggestionCount` are Go
`int`s, modeled as `Int`; `Temperature` is modeled as an exact rational. -/
structure Config where
  OpenAIAPIKey : String
  OpenAIModel : String
  OpenAIMaxTokens : Int
  OpenAIAPIBase : String
  OpenAIOrganization : String
  OpenAIProxy : String
  OpenAIAPIVersion : String
  GroqAPIKey : String
  GroqModel : String
  APIProvider : String
  SuggestionCount : Int
  SkipConfirm : Bool
  SkipHistory : Bool
  Temperature : ℚ
  Debug : Bool
  ContextMode : Bool
deriving DecidableEq

/-- The default configuration built at the top of `LoadConfig` (config.go);
fields not listed there get Go zero values. -/
def defaultConfig : Config :=
  { OpenAIAPIKey := "", OpenAIModel := "gpt-3.5-turbo", OpenAIMaxTokens := 0,
    OpenAIAPIBase := "", OpenAIOrganization := "", OpenAIProxy := "",
    OpenAIAPIVersion := "2023-05-15", GroqAPIKey := "",
    GroqModel := "llama-3.3-70b-versatile", APIProvider := "groq",
    SuggestionCount := 3, SkipConfirm := false, SkipHistory := false,
    Temperature := 0.05, Debug := false, ContextMode := false }

/-- Object members all of whose values are JSON strings, as key/value pairs;
`none` when some value is not a string (then `json.Unmarshal` into
`map[string]string` fails). -/
def jsonFieldsAsStrings : List (String × Json) → Option (List (String × String))
  | [] => some []
  | (k, .str v) :: rest => (fun r => (k, v) :: r) <$> jsonFieldsAsStrings rest
  | _ => none

/-- `json.Unmarshal(data, &configMap)` for `configMap : map[string]string`
(config.go, `loadFromConfigFile`). A `null` document leaves the map empty. -/
def jsonStringMap (data : String) : Option (List (String × String)) :=
  match jsonParseFull data with
  | some (.obj kvs) => jsonFieldsAsStrings kvs
  | some .null => some []
  | _ => none

/-- Lookup in the decoded config map. With duplicate JSON keys the decoder's
map retains the last occurrence, hence the lookup of the last match. -/
def cfgLookup (m : List (String × String)) (key : String) : Option String :=
  ((m.filter fun kv => kv.1 = key).getLast?).map fun kv => kv.2

/-- The per-key `if val, ok := configMap[...]` blocks of `loadFromConfigFile`
(config.go): string fields take the value as is; numeric and boolean fields
are updated only when `strconv` parsing succeeds, and silently keep the
previous value otherwise. Each key touches its own field, so the sequential
Go assignments are rendered as one record update. -/
def applyConfigMap (m : List (String × String)) (cfg : Config) : Config :=
  { OpenAIAPIKey := (cfgLookup m "OPENAI_API_KEY").getD cfg.OpenAIAPIKey,
    OpenAIModel := (cfgLookup m "OPENAI_MODEL").getD cfg.OpenAIModel,
    OpenAIMaxTokens :=
      match cfgLookup m "OPENAI_MAX_TOKENS" with
      | some val => (atoiGo val).getD cfg.OpenAIMaxTokens
      | none => cfg.OpenAIMaxTokens,
    OpenAIAPIBase := (cfgLookup m "OPENAI_API_BASE").getD cfg.OpenAIAPIBase,
    OpenAIOrganization := (cfgLookup m "OPENAI_ORGANIZATION").getD cfg.OpenAIOrganization,
    OpenAIProxy := (cfgLookup m "OPENAI_PROXY").getD cfg.OpenAIProxy,
    OpenAIAPIVersion := (cfgLookup m "OPENAI_API_VERSION").getD cfg.OpenAIAPIVersion,
    GroqAPIKey := (cfgLookup m "GROQ_API_KEY").getD cfg.GroqAPIKey,
    GroqModel := (cfgLookup m "GROQ_MODEL").getD cfg.GroqModel,
    APIProvider := (cfgLookup m "SHAI_API_PROVIDER").getD cfg.APIProvider,
    SuggestionCount :=
      match cfgLookup m "SHAI_SUGGESTION_COUNT" with
      | some val => (atoiGo val).getD cfg.SuggestionCount
      | none => cfg.SuggestionCount,
    SkipConfirm :=
      match cfgLookup m "SHAI_SKIP_CONFIRM" with
      | some val => (parseBoolGo val).getD cfg.SkipConfirm
      | none => cfg.SkipConfirm,
    SkipHistory :=
      match cfgLookup m "SHAI_SKIP_HISTORY" with
      | some val => (parseBoolGo val).getD cfg.SkipHistory
      | none => cfg.SkipHistory,
    Temperature :=
      match cfgLookup m "SHAI_TEMPERATURE" with
      | some val => (parseFloatGo val).getD cfg.Temperature
      | none => cfg.Temperature,
    Debug :=
      match cfgLookup m "DEBUG" with
      | some val => (parseBoolGo val).getD cfg.Debug
      | none => cfg.Debug,
    ContextMode :=
      match cfgLookup m "CTX" with
      | some val => (parseBoolGo val).getD cfg.ContextMode
      | none => cfg.ContextMode }

/-- `loadFromConfigFile` (config.go), with the file system made explicit:
`fileContent` is the contents of the platform config file, or `none` when the
file cannot be read. Read and JSON-parse failures are only warned about in
`LoadConfig`, leaving the configuration unchanged. -/
def loadFromConfigFile (fileContent : Option String) (cfg : Config) : Config :=
  match fileContent with
  | none => cfg
  | some data =>
    match jsonStringMap data with
    | none => cfg
    | some configMap => applyConfigMap configMap cfg

/-- `loadFromEnv` (config.go), with the environment made explicit as a total
function; as with `os.Getenv`, the empty string means "unset". Numeric and
boolean variables are updated only when `strconv` parsing succeeds. Each
variable touches its own field, so the sequential Go assignments are rendered
as one record update. -/
def loadFromEnv (env : String → String) (cfg : Config) : Config :=
  { OpenAIAPIKey := if env "OPENAI_API_KEY" = "" then cfg.OpenAIAPIKey else env "OPENAI_API_KEY",
    OpenAIModel := if env "OPENAI_MODEL" = "" then cfg.OpenAIModel else env "OPENAI_MODEL",
    OpenAIMaxTokens :=
      if env "OPENAI_MAX_TOKENS" = "" then cfg.OpenAIMaxTokens
      else (atoiGo (env "OPENAI_MAX_TOKENS")).getD cfg.OpenAIMaxTokens,
    OpenAIAPIBase := if env "OPENAI_API_BASE" = "" then cfg.OpenAIAPIBase else env "OPENAI_API_BASE",
    OpenAIOrganization :=
      if env "OPENAI_ORGANIZATION" = "" then cfg.OpenAIOrganization else env "OPENAI_ORGANIZATION",
    OpenAIProxy := if env "OPENAI_PROXY" = "" then cfg.OpenAIProxy else env "OPENAI_PROXY",
    OpenAIAPIVersion :=
      if env "OPENAI_API_VERSION" = "" then cfg.OpenAIAPIVersion else env "OPENAI_API_VERSION",
    GroqAPIKey := if env "GROQ_API_KEY" = "" then cfg.GroqAPIKey else env "GROQ_API_KEY",
    GroqModel := if env "GROQ_MODEL" = "" then cfg.GroqModel else env "GROQ_MODEL",
    APIProvider := if env "SHAI_API_PROVIDER" = "" then cfg.APIProvider else env "SHAI_API_PROVIDER",
    SuggestionCount :=
      if env "SHAI_SUGGESTION_COUNT" = "" then cfg.SuggestionCount
      else (atoiGo (env "SHAI_SUGGESTION_COUNT")).getD cfg.SuggestionCount,
    SkipConfirm :=
      if env "SHAI_SKIP_CONFIRM" = "" then cfg.SkipConfirm
      else (parseBoolGo (env "SHAI_SKIP_CONFIRM")).getD cfg.SkipConfirm,
    SkipHistory :=
      if env "SHAI_SKIP_HISTORY" = "" then cfg.SkipHistory
      else (parseBoolGo (env "SHAI_SKIP_HISTORY")).getD cfg.SkipHistory,
    Temperature :=
      if env "SHAI_TEMPERATURE" = "" then cfg.Temperature
      else (parseFloatGo (env "SHAI_TEMPERATURE")).getD cfg.Temperature,
    Debug :=
      if env "DEBUG" = "" then cfg.Debug
      else (parseBoolGo (env "DEBUG")).getD cfg.Debug,
    ContextMode :=
      if env "CTX" = "" then cfg.ContextMode
      else (parseBoolGo (env "CTX")).getD cfg.ContextMode }

/-- `LoadConfig` (config.go): defaults, then the (optional) config file, then
the environment. File read and parse errors are only warnings, and
`loadFromEnv` never returns an error in the Go source, so the function always
succeeds; the `Except` shape mirrors the Go signature. -/
def LoadConfig (fileContent : Option String) (env : String → String) : Except String Config :=
  Except.ok (loadFromEnv env (loadFromConfigFile fileContent defaultConfig))

/-- Environment used in the concrete instances below: malformed numeric and
boolean values for three variables, everything else unset. -/
def malformedEnvSample : String → String := fun k =>
  if k = "SHAI_SUGGESTION_COUNT" then "three"
  else if k = "SHAI_SKIP_CONFIRM" then "maybe"
  else if k = "SHAI_TEMPERATURE" then "warm"
  else ""

/-- Environment used in the concrete instances below: only `GROQ_API_KEY` is
set, to `env-key`. -/
def groqEnvSample : String → String := fun k =>
  if k = "GROQ_API_KEY" then "env-key" else ""

theorem foldl_addToken_maxTokens (l : List Char) (cm : ContextManager) :
    (l.foldl ContextManager.AddToken cm).maxTokens = cm.maxTokens := by
  induction l generalizing cm with
  | nil => rfl
  | cons c t ih => rw [List.foldl_cons, ih]; rfl

theorem foldl_addToken_from_empty (C : Nat) (hC : 1 ≤ C) (l : List Char) :
    (l.foldl ContextManager.AddToken ⟨[], C⟩).tokenBuffer = l.drop (l.length - C) := by
  induction l using List.reverseRecOn with
  | nil => simp
  | append_singleton l t ih =>
    rw [List.foldl_append, List.foldl_cons, List.foldl_nil]
    have hmax : (l.foldl ContextManager.AddToken ⟨[], C⟩).maxTokens = C :=
      foldl_addToken_maxTokens l _
    have hlen : (l.foldl ContextManager.AddToken ⟨[], C⟩).tokenBuffer.length =
        l.length - (l.length - C) := by rw [ih, List.length_drop]
    simp only [ContextManager.AddToken, hmax, ih]
    by_cases hge : (l.drop (l.length - C)).length ≥ C
    · have hlC : C ≤ l.length := by rw [List.length_drop] at hge; omega
      rw [if_pos hge, List.drop_drop]
      have hle : l.length + 1 - C ≤ l.length := by omega
      rw [List.length_append, List.length_singleton, List.drop_append_of_le_length hle]
      have : l.length + 1 - C = l.length - C + 1 := by omega
      rw [this]
    · have hlt : l.length < C := by rw [List.length_drop] at hge; omega
      rw [if_neg hge]
      have h0 : l.length - C = 0 := by omega
      have h1 : (l ++ [t]).length - C = 0 := by
        rw [List.length_append, List.length_singleton]; omega
      rw [h0, h1, List.drop_zero, List.drop_zero]

theorem getContext_eq_mk (cm : ContextManager) :
    cm.GetContext = String.mk cm.tokenBuffer := by
  rw [ContextManager.GetContext]
  split
  · next h => rw [List.length_eq_zero.mp h]
  · rfl

/-- C1: after `AddChunk text` on a `ContextManager` of capacity 1500,
`GetContext` returns exactly the trailing `min (length text) 1500` characters
of `text` (and hence nothing of any earlier chunk), and the buffer length
never exceeds 1500, including after every intermediate `AddToken` of the
chunk loop. -/
theorem addChunk_trailing_window (cm : ContextManager) (text : String)
    (hC : cm.maxTokens = 1500) :
    (cm.AddChunk text).GetContext = String.mk (text.data.drop (text.data.length - 1500)) ∧
    (cm.AddChunk text).tokenBuffer.length = min text.data.length 1500 ∧
    ∀ p : List Char, p <+: text.data →
      (p.foldl ContextManager.AddToken cm.Flush).tokenBuffer.length ≤ 1500 := by
  obtain ⟨b, m⟩ := cm
  simp only [ContextManager.maxTokens] at hC
  subst hC
  have hflush : (ContextManager.Flush ⟨b, 1500⟩) = (⟨[], 1500⟩ : ContextManager) := rfl
  have hbuf : ∀ p : List Char,
      (p.foldl ContextManager.AddToken (ContextManager.Flush ⟨b, 1500⟩)).tokenBuffer =
        p.drop (p.length - 1500) := by
    intro p
    rw [hflush]
    exact foldl_addToken_from_empty 1500 (by omega) p
  refine ⟨?_, ?_, ?_⟩
  · rw [ContextManager.AddChunk, getContext_eq_mk, hbuf]
  · rw [ContextManager.AddChunk, hbuf, List.length_drop]; omega
  · intro p _
    rw [hbuf, List.length_drop]; omega

/-- C1 witness: capacity hypothesis discharged on a fresh manager and a
two-character chunk. -/
theorem addChunk_trailing_window_witness :
    (NewContextManager.AddChunk "ok").GetContext =
      String.mk ("ok".data.drop ("ok".data.length - 1500)) :=
  (addChunk_trailing_window NewContextManager "ok" rfl).1

theorem dedupLoop_eq_append (l : List String) : ∀ seen result,
    dedupLoop seen result l = result ++ dedupCore seen l := by
  induction l with
  | nil => intro seen result; simp [dedupLoop, dedupCore]
  | cons x xs ih =>
    intro seen result
    by_cases hx : x ∈ seen
    · simp [dedupLoop, dedupCore, hx, ih]
    · simp [dedupLoop, dedupCore, hx, ih]

theorem mem_dedupCore : ∀ (l : List String) (seen s),
    s ∈ dedupCore seen l ↔ s ∈ l ∧ s ∉ seen := by
  intro l
  induction l with
  | nil => intro seen s; simp [dedupCore]
  | cons x xs ih =>
    intro seen s
    by_cases hx : x ∈ seen
    · rw [dedupCore, if_pos hx, ih]
      constructor
      · rintro ⟨h1, h2⟩; exact ⟨List.mem_cons_of_mem _ h1, h2⟩
      · rintro ⟨h1, h2⟩
        rcases List.mem_cons.mp h1 with rfl | h1
        · exact absurd hx h2
        · exact ⟨h1, h2⟩
    · rw [dedupCore, if_neg hx]
      constructor
      · intro hs
        rcases List.mem_cons.mp hs with rfl | hs
        · exact ⟨List.mem_cons_self _ _, hx⟩
        · rw [ih] at hs
          exact ⟨List.mem_cons_of_mem _ hs.1, fun hseen => hs.2 (List.mem_cons_of_mem _ hseen)⟩
      · rintro ⟨h1, h2⟩
        by_cases hsx : s = x
        · exact hsx ▸ List.mem_cons_self _ _
        · rcases List.mem_cons.mp h1 with rfl | h1
          · exact absurd rfl hsx
          · refine List.mem_cons_of_mem _ ?_
            rw [ih]
            exact ⟨h1, fun hs => (List.mem_cons.mp hs).elim hsx h2⟩

theorem nodup_dedupCore : ∀ (l : List String) (seen), (dedupCore seen l).Nodup := by
  intro l
  induction l with
  | nil => intro seen; simp [dedupCore]
  | cons x xs ih =>
    intro seen
    by_cases hx : x ∈ seen
    · rw [dedupCore, if_pos hx]; exact ih seen
    · rw [dedupCore, if_neg hx]
      refine List.Pairwise.cons ?_ (ih (x :: seen))
      intro b hb
      rw [mem_dedupCore] at hb
      intro he
      exact hb.2 (he ▸ List.mem_cons_self x seen)

theorem pairwise_indexOf_lift (x : String) (xs : List String) (L : List String)
    (hne : ∀ a ∈ L, a ≠ x)
    (h : L.Pairwise fun a b => xs.indexOf a < xs.indexOf b) :
    L.Pairwise fun a b => (x :: xs).indexOf a < (x :: xs).indexOf b := by
  refine h.imp_of_mem ?_
  intro a b ha hb hab
  rw [List.indexOf_cons_ne xs (Ne.symm (hne a ha)),
    List.indexOf_cons_ne xs (Ne.symm (hne b hb))]
  exact Nat.succ_lt_succ hab

theorem pairwise_dedupCore : ∀ (xs : List String) (seen),
    (dedupCore seen xs).Pairwise fun a b => xs.indexOf a < xs.indexOf b := by
  intro xs
  induction xs with
  | nil => intro seen; simp [dedupCore]
  | cons x l ih =>
    intro seen
    by_cases hx : x ∈ seen
    · rw [dedupCore, if_pos hx]
      refine pairwise_indexOf_lift x l _ ?_ (ih seen)
      intro a ha
      rw [mem_dedupCore] at ha
      rintro rfl
      exact ha.2 hx
    · rw [dedupCore, if_neg hx]
      refine List.Pairwise.cons ?_ ?_
      · intro b hb
        rw [mem_dedupCore] at hb
        have hbx : b ≠ x := fun he => hb.2 (he ▸ List.mem_cons_self x seen)
        rw [List.indexOf_cons_self, List.indexOf_cons_ne l (Ne.symm hbx)]
        exact Nat.succ_pos _
      · refine pairwise_indexOf_lift x l _ ?_ (ih (x :: seen))
        intro a ha
        rw [mem_dedupCore] at ha
        intro he
        exact ha.2 (he ▸ List.mem_cons_self x seen)

/-- C5: `deduplicate` keeps exactly the distinct strings of its input
(nothing absent from the input appears), each exactly once, ordered by the
index of their first appearance in the input. -/
theorem deduplicate_first_occurrence (l : List String) :
    (∀ s, s ∈ deduplicate l ↔ s ∈ l) ∧ (deduplicate l).Nodup ∧
    (deduplicate l).Pairwise fun a b => l.indexOf a < l.indexOf b := by
  have he : deduplicate l = dedupCore [] l := by
    rw [deduplicate, dedupLoop_eq_append]; rfl
  refine ⟨?_, ?_, ?_⟩ <;> rw [he]
  · intro s
    rw [mem_dedupCore]
    simp
  · exact nodup_dedupCore l []
  · exact pairwise_dedupCore l []

theorem foldl_suggestionStep (outcomes : List TaskOutcome) : ∀ s e : List String,
    outcomes.foldl suggestionStep (s, e) =
      (s ++ collectSuggestions outcomes, e ++ collectErrors outcomes) := by
  induction outcomes with
  | nil => intro s e; simp [collectSuggestions, collectErrors]
  | cons o os ih =>
    intro s e
    rw [List.foldl_cons]
    cases o with
    | error m =>
      rw [show suggestionStep (s, e) (.error m) = (s, e ++ [m]) from rfl, ih]
      simp [collectSuggestions, collectErrors, List.filterMap_cons]
    | ok c =>
      by_cases hc : c = ""
      · subst hc
        rw [show suggestionStep (s, e) (.ok "") = (s, e) from rfl, ih]
        simp [collectSuggestions, collectErrors, List.filterMap_cons]
      · rw [show suggestionStep (s, e) (.ok c) = (s ++ [c], e) from by
          simp [suggestionStep, hc], ih]
        simp [collectSuggestions, collectErrors, List.filterMap_cons, hc]

/-- C2: for a round of at least one task, `generateSuggestions` fails exactly
when the collected suggestion list is empty and at least one error was
recorded, in which case it surfaces the first recorded error; in every other
case it returns the deduplicated suggestion list without error. -/
theorem generateSuggestions_error_iff (outcomes : List TaskOutcome)
    (_hn : 1 ≤ outcomes.length) :
    ((∃ e, generateSuggestions outcomes = .error e) ↔
      collectSuggestions outcomes = [] ∧ collectErrors outcomes ≠ []) ∧
    (∀ e rest, collectSuggestions outcomes = [] → collectErrors outcomes = e :: rest →
      generateSuggestions outcomes = .error ("failed to generate suggestions: " ++ e)) ∧
    (collectSuggestions outcomes ≠ [] ∨ collectErrors outcomes = [] →
      generateSuggestions outcomes = .ok (deduplicate (collectSuggestions outcomes))) := by
  have hgen : generateSuggestions outcomes =
      match collectSuggestions outcomes, collectErrors outcomes with
      | [], e :: _ => .error ("failed to generate suggestions: " ++ e)
      | _, _ => .ok (deduplicate (collectSuggestions outcomes)) := by
    rw [generateSuggestions, foldl_suggestionStep outcomes [] []]
    simp
  rcases hs : collectSuggestions outcomes with _ | ⟨c, cs⟩ <;>
    rcases he : collectErrors outcomes with _ | ⟨e, es⟩ <;>
      rw [hs, he] at hgen <;> simp only [] at hgen
  · exact ⟨by simp [hgen], by simp, fun _ => hgen⟩
  · refine ⟨by simp [hgen], ?_, ?_⟩
    · rintro e' rest' _ heq
      injection heq with h3 _
      subst h3
      exact hgen
    · rintro (h | h)
      · exact absurd rfl h
      · cases h
  · exact ⟨by simp [hgen], by simp [hs], fun _ => hgen⟩
  · exact ⟨by simp [hgen], by simp [hs], fun _ => hgen⟩

/-- C2 witness: one failing task, no suggestions: the round fails with the
first (only) recorded error. -/
theorem generateSuggestions_error_iff_witness :
    generateSuggestions [Except.error "boom"] =
      .error ("failed to generate suggestions: " ++ "boom") :=
  (generateSuggestions_error_iff [Except.error "boom"] (by decide)).2.1 "boom" [] rfl rfl

/-- C10: when every task completes without error but yields an empty command,
`generateSuggestions` returns the empty suggestion list without error. -/
theorem generateSuggestions_all_empty_ok (outcomes : List TaskOutcome)
    (h : ∀ o ∈ outcomes, o = .ok "") :
    generateSuggestions outcomes = .ok [] := by
  have hs : collectSuggestions outcomes = [] := by
    rw [collectSuggestions, List.filterMap_eq_nil_iff]
    intro o ho
    rw [h o ho]
    simp
  have he : collectErrors outcomes = [] := by
    rw [collectErrors, List.filterMap_eq_nil_iff]
    intro o ho
    rw [h o ho]
  rw [generateSuggestions, foldl_suggestionStep outcomes [] [], hs, he]
  rfl

/-- C10 witness: three tasks, each parsing successfully to the empty command. -/
theorem generateSuggestions_all_empty_ok_witness :
    generateSuggestions [Except.ok "", Except.ok "", Except.ok ""] = .ok [] :=
  generateSuggestions_all_empty_ok [Except.ok "", Except.ok "", Except.ok ""] (by simp)

theorem startsWithAny_editors_false_of_cd (s : String) (u : List Char)
    (hu : s.data = 'c' :: 'd' :: u) :
    startsWithAny s TextEditors = false := by
  simp only [startsWithAny, TextEditors, goStartsWith, List.any_cons, List.any_nil, hu]
  rfl

/-- C9: in context mode the selected command is classified by raw string
prefix, not by its first word: any command whose text begins with `cd` is
treated as a directory change (e.g. `cdparanoia ...`), and any command whose
text begins with one of the editor names is run attached to the terminal
(e.g. `editcap ...` via the prefix `ed`, while `echo hi | view` is not,
despite containing an editor name). -/
theorem classifyContextCommand_raw_prefix (s₁ s₂ : String)
    (h₁ : goStartsWith s₁ "cd" = true)
    (h₂ : startsWithAny s₂ TextEditors = true) :
    classifyContextCommand s₁ = .chdir ∧ classifyContextCommand s₂ = .editor ∧
    classifyContextCommand "cdparanoia -B" = .chdir ∧
    classifyContextCommand "echo hi | view" = .capture ∧
    classifyContextCommand "editcap -c 1000 a.pcap b.pcap" = .editor := by
  refine ⟨?_, ?_, by decide, by decide, by decide⟩
  · have hcd : "cd".data = ['c', 'd'] := rfl
    have h₁' := h₁
    rw [goStartsWith, hcd] at h₁'
    obtain ⟨u, hu⟩ : ∃ u, s₁.data = 'c' :: 'd' :: u := by
      rcases hs : s₁.data with _ | ⟨a, _ | ⟨b, u⟩⟩ <;> rw [hs] at h₁' <;>
        simp [List.isPrefixOf] at h₁'
      obtain ⟨rfl, rfl⟩ := h₁'
      exact ⟨u, rfl⟩
    rw [classifyContextCommand, startsWithAny_editors_false_of_cd s₁ u hu]
    simp [h₁]
  · rw [classifyContextCommand, h₂]
    rfl

theorem unmarshalCommand_empty : unmarshalCommand "" = .error "invalid JSON" := rfl

/-- C4: `ParseLLMResponse` selects, in this order of precedence, the first
fenced code block's (trimmed) content, else the first inline backtick span's
(trimmed) content, else the whole raw text, and returns exactly the `command`
value when the selected substring unmarshals as `{"command": string}`. -/
theorem parseLLMResponse_precedence (r c : String)
    (h : (∃ g, findFirstCodeBlock r.data = some g ∧
            unmarshalCommand (goTrimSpace (String.mk g)) = .ok c) ∨
         (findFirstCodeBlock r.data = none ∧
           ∃ g, findFirstInline r.data = some g ∧
            unmarshalCommand (goTrimSpace (String.mk g)) = .ok c) ∨
         (findFirstCodeBlock r.data = none ∧ findFirstInline r.data = none ∧
            unmarshalCommand r = .ok c)) :
    ParseLLMResponse r = .ok c := by
  rcases h with ⟨g, hg, hok⟩ | ⟨hnb, g, hg, hok⟩ | ⟨hnb, hni, hok⟩
  · have hne : goTrimSpace (String.mk g) ≠ "" := by
      intro he
      rw [he, unmarshalCommand_empty] at hok
      exact Except.noConfusion hok
    rw [ParseLLMResponse, extractJSONFromMarkdown, hg]
    simp only [hne, if_false]
    exact hok
  · have hne : goTrimSpace (String.mk g) ≠ "" := by
      intro he
      rw [he, unmarshalCommand_empty] at hok
      exact Except.noConfusion hok
    rw [ParseLLMResponse, extractJSONFromMarkdown, hnb, hg]
    simp only [hne, if_false]
    exact hok
  · rw [ParseLLMResponse, extractJSONFromMarkdown, hnb, hni]
    simp only [if_pos rfl]
    exact hok

/-- C4 witness: a `json`-tagged fenced code block around
`{"command": "ls -la"}` (the repository's own test case). -/
theorem parseLLMResponse_precedence_witness :
    ParseLLMResponse "```json\n\x7b\"command\": \"ls -la\"\x7d\n```" = .ok "ls -la" :=
  parseLLMResponse_precedence "```json\n\x7b\"command\": \"ls -la\"\x7d\n```" "ls -la"
    (Or.inl ⟨"\x7b\"command\": \"ls -la\"\x7d".data, by decide, rfl⟩)

/-- C3 counterexample: on the valid JSON `{"command": ""}` the code returns a
successful result carrying the empty command, not an error. -/
theorem parseLLMResponse_empty_command_ok :
    ParseLLMResponse "\x7b\"command\": \"\"\x7d" = .ok "" := rfl

/-- C3 (amended): `ParseLLMResponse` returns an error — it is a total
function, so it never panics — whenever the substring selected for parsing
(the extracted markdown content, or the whole raw text when nothing
non-empty was extracted, including the empty response) is malformed JSON; a
syntactically valid document with an empty or absent `command` field instead
yields a successful result with the empty command, which the caller filters
out. -/
theorem parseLLMResponse_malformed_error (r : String)
    (h : jsonParseFull
        (if extractJSONFromMarkdown r = "" then r else extractJSONFromMarkdown r) = none) :
    ∃ e, ParseLLMResponse r = .error e := by
  refine ⟨"invalid JSON", ?_⟩
  show unmarshalCommand
      (if extractJSONFromMarkdown r = "" then r else extractJSONFromMarkdown r) =
    Except.error "invalid JSON"
  rw [unmarshalCommand, h]

/-- C3 witness: the repository test input `not a json` fails with a parse
error. -/
theorem parseLLMResponse_malformed_error_witness :
    ∃ e, ParseLLMResponse "not a json" = .error e :=
  parseLLMResponse_malformed_error "not a json" rfl

/-- C6: a numeric or boolean value that fails to parse, in either the config
file layer or the environment layer, is silently ignored: the field keeps the
value from the previous layer, and `LoadConfig` never returns an error
because of it. Shown for `SHAI_SUGGESTION_COUNT` (`Atoi`),
`SHAI_SKIP_CONFIRM` (`ParseBool`) and `SHAI_TEMPERATURE` (`ParseFloat`) in
both layers. -/
theorem config_lenient_parsing (fileContent : Option String) (env : String → String)
    (m : List (String × String)) (cfg : Config) (vc vs vt : String)
    (hc : atoiGo vc = none) (hs : parseBoolGo vs = none) (ht : parseFloatGo vt = none) :
    (env "SHAI_SUGGESTION_COUNT" = vc →
      (loadFromEnv env cfg).SuggestionCount = cfg.SuggestionCount) ∧
    (env "SHAI_SKIP_CONFIRM" = vs → (loadFromEnv env cfg).SkipConfirm = cfg.SkipConfirm) ∧
    (env "SHAI_TEMPERATURE" = vt → (loadFromEnv env cfg).Temperature = cfg.Temperature) ∧
    (cfgLookup m "SHAI_SUGGESTION_COUNT" = some vc →
      (applyConfigMap m cfg).SuggestionCount = cfg.SuggestionCount) ∧
    (cfgLookup m "SHAI_SKIP_CONFIRM" = some vs →
      (applyConfigMap m cfg).SkipConfirm = cfg.SkipConfirm) ∧
    (cfgLookup m "SHAI_TEMPERATURE" = some vt →
      (applyConfigMap m cfg).Temperature = cfg.Temperature) ∧
    ∃ c, LoadConfig fileContent env = .ok c := by
  refine ⟨?_, ?_, ?_, ?_, ?_, ?_, ⟨_, rfl⟩⟩
  · intro h
    by_cases hemp : env "SHAI_SUGGESTION_COUNT" = ""
    · simp [loadFromEnv, hemp]
    · simp [loadFromEnv, hemp, h, hc]
  · intro h
    by_cases hemp : env "SHAI_SKIP_CONFIRM" = ""
    · simp [loadFromEnv, hemp]
    · simp [loadFromEnv, hemp, h, hs]
  · intro h
    by_cases hemp : env "SHAI_TEMPERATURE" = ""
    · simp [loadFromEnv, hemp]
    · simp [loadFromEnv, hemp, h, ht]
  · intro h
    simp [applyConfigMap, h, hc]
  · intro h
    simp [applyConfigMap, h, hs]
  · intro h
    simp [applyConfigMap, h, ht]

/-- C6 witness: environment with `SHAI_SUGGESTION_COUNT=three`,
`SHAI_SKIP_CONFIRM=maybe`, `SHAI_TEMPERATURE=warm`: all three fields keep
their defaults. -/
theorem config_lenient_parsing_witness :
    (loadFromEnv malformedEnvSample defaultConfig).SuggestionCount =
      defaultConfig.SuggestionCount ∧
    (loadFromEnv malformedEnvSample defaultConfig).SkipConfirm = defaultConfig.SkipConfirm ∧
    (loadFromEnv malformedEnvSample defaultConfig).Temperature = defaultConfig.Temperature := by
  obtain ⟨h1, h2, h3, _, _, _, _⟩ := config_lenient_parsing none malformedEnvSample
    [("SHAI_SUGGESTION_COUNT", "three")] defaultConfig "three" "maybe" "warm" rfl rfl rfl
  exact ⟨h1 rfl, h2 rfl, h3 rfl⟩

/-- C7: with no config file and no environment variables set, `LoadConfig`
succeeds with the documented defaults. -/
theorem loadConfig_defaults :
    LoadConfig none (fun _ => "") = .ok defaultConfig ∧
    defaultConfig.OpenAIModel = "gpt-3.5-turbo" ∧
    defaultConfig.SuggestionCount = 3 ∧
    defaultConfig.APIProvider = "groq" ∧
    defaultConfig.GroqModel = "llama-3.3-70b-versatile" ∧
    defaultConfig.Temperature = 0.05 :=
  ⟨rfl, rfl, rfl, rfl, rfl, rfl⟩

/-- C8: whenever the environment sets `GROQ_API_KEY` (non-empty), the
resolved `GroqAPIKey` is the environment value, whatever the config file
says; concretely, with the file setting `file-key` (which the file layer does
absorb) and the environment setting `env-key`, the resolved value is
`env-key`. -/
theorem groq_env_overrides_file (fileContent : Option String) (env : String → String)
    (h : env "GROQ_API_KEY" ≠ "") :
    (∃ c, LoadConfig fileContent env = .ok c ∧ c.GroqAPIKey = env "GROQ_API_KEY") ∧
    (loadFromConfigFile (some "\x7b\"GROQ_API_KEY\": \"file-key\"\x7d")
        defaultConfig).GroqAPIKey = "file-key" ∧
    (∃ c, LoadConfig (some "\x7b\"GROQ_API_KEY\": \"file-key\"\x7d") groqEnvSample = .ok c ∧
      c.GroqAPIKey = "env-key") := by
  refine ⟨⟨_, rfl, ?_⟩, rfl, ⟨_, rfl, rfl⟩⟩
  simp [loadFromEnv, h]

/-- C8 witness: hypothesis discharged with the `env-key` environment and the
`file-key` config file. -/
theorem groq_env_overrides_file_witness :
    ∃ c, LoadConfig (some "\x7b\"GROQ_API_KEY\": \"file-key\"\x7d") groqEnvSample = .ok c ∧
      c.GroqAPIKey = groqEnvSample "GROQ_API_KEY" :=
  (groq_env_overrides_file (some "\x7b\"GROQ_API_KEY\": \"file-key\"\x7d") groqEnvSample
    (by decide)).1

/-- C9 witness: the two prefix hypotheses discharged on `cdparanoia -B` and
`editcap ...`. -/
theorem classifyContextCommand_raw_prefix_witness :
    classifyContextCommand "cdparanoia -B" = CtxExec.chdir ∧
    classifyContextCommand "editcap -c 1000 a.pcap b.pcap" = CtxExec.editor := by
  have h := classifyContextCommand_raw_prefix "cdparanoia -B" "editcap -c 1000 a.pcap b.pcap"
    (by decide) (by decide)
  exact ⟨h.1, h.2.1⟩
